import Mathlib

/-!
# Formal model of the websec-chatplatform core

Shallow embedding of the chat platform's core logic: the credential store,
session manager, user directory, message store and conversation aggregator
(backend, modelled from the specification since the backend sources are not
part of this tree), and the browser-side retrieval wrappers
(`frontend/src/api/messages.ts`, `frontend/src/api/auth.ts`,
`frontend/src/api/useAuth.ts`, translated from the source).
-/

set_option maxHeartbeats 1000000
set_option autoImplicit false

namespace Chat

/-- Error taxonomy of the core (spec §7): `ValidationError`, `ConflictError`,
`AuthError`, `NotFoundError`. -/
inductive Err where
  | validation
  | conflict
  | auth
  | notFound
deriving DecidableEq, Repr

/-- Text is modelled as a list of characters, so that all operations on it
are kernel-computable. -/
abbrev Text := List Char

/-- Leading and trailing whitespace removed (the `trim` applied to message
content, display names and search queries). -/
def trimText (s : Text) : Text :=
  ((s.dropWhile Char.isWhitespace).reverse.dropWhile Char.isWhitespace).reverse

/-- A directed message (spec §3): unique id, sender, recipient, content,
server-assigned creation timestamp.  Ids and timestamps are modelled as `Nat`. -/
structure Message where
  id : Nat
  senderId : Nat
  recipientId : Nat
  content : Text
  createdAt : Nat
deriving DecidableEq, Repr

/-- Chronological order on messages: by creation timestamp, ties broken by id
(spec §4.4 / §4.5). -/
def msgLeP (m m' : Message) : Prop :=
  m.createdAt < m'.createdAt ∨ (m.createdAt = m'.createdAt ∧ m.id ≤ m'.id)

instance : DecidableRel msgLeP := fun a b => by
  unfold msgLeP; infer_instance

instance : IsTotal Message msgLeP := by
  constructor
  intro a b
  unfold msgLeP
  rcases Nat.lt_trichotomy a.createdAt b.createdAt with h | h | h
  · exact Or.inl (Or.inl h)
  · rcases Nat.le_total a.id b.id with h2 | h2
    · exact Or.inl (Or.inr ⟨h, h2⟩)
    · exact Or.inr (Or.inr ⟨h.symm, h2⟩)
  · exact Or.inr (Or.inl h)

instance : IsTrans Message msgLeP := by
  constructor
  intro a b c hab hbc
  unfold msgLeP at *
  rcases hab with h1 | ⟨e1, i1⟩
  · rcases hbc with h2 | ⟨e2, _⟩
    · exact Or.inl (h1.trans h2)
    · exact Or.inl (e2 ▸ h1)
  · rcases hbc with h2 | ⟨e2, i2⟩
    · exact Or.inl (e1 ▸ h2)
    · exact Or.inr ⟨e1.trans e2, i1.trans i2⟩

theorem msgLeP_refl (m : Message) : msgLeP m m :=
  Or.inr ⟨rfl, Nat.le_refl _⟩

theorem msgLeP_trans {a b c : Message} (h1 : msgLeP a b) (h2 : msgLeP b c) : msgLeP a c :=
  IsTrans.trans a b c h1 h2

theorem msgLeP_total (a b : Message) : msgLeP a b ∨ msgLeP b a :=
  IsTotal.total a b

/-- Whether `u` is the sender or the recipient of `m`. -/
def Message.involves (m : Message) (u : Nat) : Bool :=
  m.senderId == u || m.recipientId == u

/-- The party of `m` other than `u` (the counterpart, spec §4.5). -/
def Message.other (m : Message) (u : Nat) : Nat :=
  if m.senderId == u then m.recipientId else m.senderId

/-- The newest of `best` and the messages of the list, w.r.t. timestamp with
ties broken by id (the per-group representative selection of spec §4.5). -/
def pickNewest (best : Message) : List Message → Message
  | [] => best
  | x :: xs => pickNewest (if msgLeP best x then x else best) xs

theorem pickNewest_mem (best : Message) (xs : List Message) :
    pickNewest best xs ∈ best :: xs := by
  induction xs generalizing best with
  | nil => exact List.mem_singleton.mpr rfl
  | cons x xs ih =>
    show pickNewest (if msgLeP best x then x else best) xs ∈ best :: x :: xs
    rcases List.mem_cons.mp (ih (if msgLeP best x then x else best)) with h | h
    · rw [h]
      by_cases hc : msgLeP best x
      · rw [if_pos hc]; exact List.mem_cons_of_mem _ (List.mem_cons_self _ _)
      · rw [if_neg hc]; exact List.mem_cons_self _ _
    · exact List.mem_cons_of_mem _ (List.mem_cons_of_mem _ h)

theorem pickNewest_ge (best : Message) (xs : List Message) :
    msgLeP best (pickNewest best xs) ∧ ∀ x ∈ xs, msgLeP x (pickNewest best xs) := by
  induction xs generalizing best with
  | nil => exact ⟨msgLeP_refl best, by intro x hx; cases hx⟩
  | cons x xs ih =>
    have h := ih (if msgLeP best x then x else best)
    have hb : msgLeP best (if msgLeP best x then x else best) := by
      by_cases hc : msgLeP best x
      · rw [if_pos hc]; exact hc
      · rw [if_neg hc]; exact msgLeP_refl best
    have hx : msgLeP x (if msgLeP best x then x else best) := by
      by_cases hc : msgLeP best x
      · rw [if_pos hc]; exact msgLeP_refl x
      · rw [if_neg hc]
        rcases msgLeP_total best x with h' | h'
        · exact absurd h' hc
        · exact h'
    refine ⟨msgLeP_trans hb h.1, ?_⟩
    intro y hy
    rcases List.mem_cons.mp hy with rfl | hy
    · exact msgLeP_trans hx h.1
    · exact h.2 y hy

/-- State of the message store: the known user ids (provided by the credential
store), the append-only message log, the next message id and the server clock. -/
structure MsgStore where
  userIds : List Nat
  messages : List Message
  nextId : Nat
  now : Nat
deriving Repr

/-- Modelled from the spec: `send(senderId, recipientId, rawContent)` of the
Message Store (spec §4.4); the backend implementation (`backend/src/main.py`)
is not in the source tree.  Trims the content; `ValidationError` when the trim
is empty or over 5000 characters, `ValidationError` when sender = recipient,
`NotFoundError` when the recipient does not exist; otherwise persists a new
message with server-assigned id and timestamp and returns it in full. -/
def send (st : MsgStore) (senderId recipientId : Nat) (rawContent : Text) :
    Except Err Message × MsgStore :=
  let content := trimText rawContent
  if content.length = 0 ∨ content.length > 5000 then (.error .validation, st)
  else if senderId = recipientId then (.error .validation, st)
  else if recipientId ∉ st.userIds then (.error .notFound, st)
  else
    let m : Message := ⟨st.nextId, senderId, recipientId, content, st.now⟩
    (.ok m, { st with messages := st.messages ++ [m], nextId := st.nextId + 1 })

/-- The messages exchanged between `u` and `c`, in either direction (spec §4.4). -/
def pairMsgs (msgs : List Message) (u c : Nat) : List Message :=
  msgs.filter fun m =>
    (m.senderId == u && m.recipientId == c) || (m.senderId == c && m.recipientId == u)

/-- Modelled from the spec: `history(userId, counterpartId, limit, offset)` of
the Message Store (spec §4.4); the backend implementation
(`backend/src/main.py`) is not in the source tree.  `NotFoundError` when the
counterpart does not exist; otherwise the pair's messages ordered oldest-first
by timestamp (ties by id), with `offset` (default 0) dropped and at most
`limit` (default 100, hard-capped at 500) taken. -/
def history (st : MsgStore) (u c : Nat) (lim off : Option Nat) :
    Except Err (List Message) :=
  if c ∈ st.userIds then
    .ok (((((pairMsgs st.messages u c).insertionSort msgLeP).drop (off.getD 0)).take
      (min (lim.getD 100) 500)))
  else .error .notFound

theorem mem_pairMsgs {msgs : List Message} {u c : Nat} {m : Message} :
    m ∈ pairMsgs msgs u c ↔
      m ∈ msgs ∧ ((m.senderId = u ∧ m.recipientId = c) ∨
                  (m.senderId = c ∧ m.recipientId = u)) := by
  simp [pairMsgs, List.mem_filter]

/-- C2: `history(U, C, limit, offset)` returns exactly the messages exchanged
between U and C in either direction, ordered oldest-first by creation
timestamp with ties broken by id; `limit` defaults to 100 and is hard-capped
at 500, `offset` defaults to 0; with limit = 1 and offset = 1 on a 3-message
conversation it returns exactly the second-oldest message. -/
theorem history_spec (st : MsgStore) (u c lim off : Nat) (hc : c ∈ st.userIds) :
    ∃ all : List Message,
      (∀ m, m ∈ all ↔ m ∈ st.messages ∧
        ((m.senderId = u ∧ m.recipientId = c) ∨ (m.senderId = c ∧ m.recipientId = u))) ∧
      all.Perm (pairMsgs st.messages u c) ∧
      all.Sorted msgLeP ∧
      history st u c (some lim) (some off) = .ok ((all.drop off).take (min lim 500)) ∧
      history st u c none none = .ok (all.take 100) ∧
      (∀ m1 m2 m3, all = [m1, m2, m3] → history st u c (some 1) (some 1) = .ok [m2]) := by
  refine ⟨(pairMsgs st.messages u c).insertionSort msgLeP, ?_, ?_, ?_, ?_, ?_, ?_⟩
  · intro m
    rw [List.mem_insertionSort, mem_pairMsgs]
  · exact List.perm_insertionSort msgLeP _
  · exact List.sorted_insertionSort msgLeP _
  · simp [history, hc]
  · simp [history, hc]
  · intro m1 m2 m3 h
    simp [history, hc, h]

theorem history_spec_witness :
    (2 ∈ (MsgStore.mk [1, 2] [⟨0, 1, 2, "a".data, 10⟩, ⟨1, 2, 1, "b".data, 11⟩,
        ⟨2, 1, 2, "c".data, 12⟩] 3 20).userIds) ∧
    (∃ all : List Message,
      (∀ m, m ∈ all ↔ m ∈ (MsgStore.mk [1, 2] [⟨0, 1, 2, "a".data, 10⟩, ⟨1, 2, 1, "b".data, 11⟩,
          ⟨2, 1, 2, "c".data, 12⟩] 3 20).messages ∧
        ((m.senderId = 1 ∧ m.recipientId = 2) ∨ (m.senderId = 2 ∧ m.recipientId = 1))) ∧
      all.Perm (pairMsgs (MsgStore.mk [1, 2] [⟨0, 1, 2, "a".data, 10⟩, ⟨1, 2, 1, "b".data, 11⟩,
          ⟨2, 1, 2, "c".data, 12⟩] 3 20).messages 1 2) ∧
      all.Sorted msgLeP ∧
      history (MsgStore.mk [1, 2] [⟨0, 1, 2, "a".data, 10⟩, ⟨1, 2, 1, "b".data, 11⟩,
          ⟨2, 1, 2, "c".data, 12⟩] 3 20) 1 2 (some 1) (some 1) =
        .ok ((all.drop 1).take (min 1 500)) ∧
      history (MsgStore.mk [1, 2] [⟨0, 1, 2, "a".data, 10⟩, ⟨1, 2, 1, "b".data, 11⟩,
          ⟨2, 1, 2, "c".data, 12⟩] 3 20) 1 2 none none = .ok (all.take 100) ∧
      (∀ m1 m2 m3, all = [m1, m2, m3] →
        history (MsgStore.mk [1, 2] [⟨0, 1, 2, "a".data, 10⟩, ⟨1, 2, 1, "b".data, 11⟩,
            ⟨2, 1, 2, "c".data, 12⟩] 3 20) 1 2 (some 1) (some 1) = .ok [m2])) :=
  ⟨by decide,
   history_spec (MsgStore.mk [1, 2] [⟨0, 1, 2, "a".data, 10⟩, ⟨1, 2, 1, "b".data, 11⟩,
      ⟨2, 1, 2, "c".data, 12⟩] 3 20) 1 2 1 1 (by decide)⟩

/-- C3: `send` trims the raw content and fails with `ValidationError` when
the trim is empty or over 5000 characters; it fails with `ValidationError`
whenever sender = recipient, for any content; it fails with `NotFoundError`
when the recipient is not an existing user; otherwise it persists and returns
a new message in full, with the server-assigned id and timestamp. -/
theorem send_spec (st : MsgStore) (s r : Nat) (rawContent : Text) :
    ((trimText rawContent).length = 0 ∨ (trimText rawContent).length > 5000 →
      send st s r rawContent = (.error .validation, st)) ∧
    (s = r → send st s r rawContent = (.error .validation, st)) ∧
    ((trimText rawContent).length ≠ 0 → (trimText rawContent).length ≤ 5000 →
      s ≠ r → r ∉ st.userIds → send st s r rawContent = (.error .notFound, st)) ∧
    ((trimText rawContent).length ≠ 0 → (trimText rawContent).length ≤ 5000 →
      s ≠ r → r ∈ st.userIds →
      send st s r rawContent =
        (.ok ⟨st.nextId, s, r, trimText rawContent, st.now⟩,
         { st with
            messages := st.messages ++ [⟨st.nextId, s, r, trimText rawContent, st.now⟩],
            nextId := st.nextId + 1 })) := by
  refine ⟨?_, ?_, ?_, ?_⟩
  · intro h
    simp only [send]
    rw [if_pos h]
  · intro h
    simp only [send]
    by_cases hlen : (trimText rawContent).length = 0 ∨ (trimText rawContent).length > 5000
    · rw [if_pos hlen]
    · rw [if_neg hlen, if_pos h]
  · intro h1 h2 h3 h4
    simp only [send]
    rw [if_neg (by omega), if_neg h3, if_pos h4]
  · intro h1 h2 h3 h4
    simp only [send]
    rw [if_neg (by omega), if_neg h3, if_neg (by simp [h4])]

theorem send_spec_witness :
    ((trimText ("  Hey Bob  ".data)).length ≠ 0) ∧
    ((trimText ("  Hey Bob  ".data)).length ≤ 5000) ∧
    ((1 : Nat) ≠ 2) ∧ (2 ∈ [1, 2]) ∧
    send (MsgStore.mk [1, 2] [] 0 5) 1 2 ("  Hey Bob  ".data) =
      (.ok ⟨0, 1, 2, trimText ("  Hey Bob  ".data), 5⟩,
       { (MsgStore.mk [1, 2] [] 0 5) with
          messages := (MsgStore.mk [1, 2] [] 0 5).messages ++
            [⟨0, 1, 2, trimText ("  Hey Bob  ".data), 5⟩],
          nextId := 1 }) :=
  ⟨by decide, by decide, by decide, by decide,
   (send_spec (MsgStore.mk [1, 2] [] 0 5) 1 2 ("  Hey Bob  ".data)).2.2.2
     (by decide) (by decide) (by decide) (by decide)⟩

/-- A conversation-list entry (spec §4.5): counterpart, its display name, the
representative message's content truncated to a 100-character preview, and
the representative message's timestamp. -/
structure ConvEntry where
  counterpartId : Nat
  counterpartDisplayName : Text
  lastMessageContent : Text
  lastMessageTime : Nat
deriving DecidableEq, Repr

/-- Descending order on conversation entries by last-message timestamp. -/
def entryGE (a b : ConvEntry) : Prop :=
  b.lastMessageTime ≤ a.lastMessageTime

instance : DecidableRel entryGE := fun a b => by
  unfold entryGE; infer_instance

instance : IsTotal ConvEntry entryGE :=
  ⟨fun a b => Nat.le_total b.lastMessageTime a.lastMessageTime⟩

instance : IsTrans ConvEntry entryGE :=
  ⟨fun _ _ _ h1 h2 => h2.trans h1⟩

/-- The messages of `msgs` in which `u` takes part (sender or recipient). -/
def userMsgs (msgs : List Message) (u : Nat) : List Message :=
  msgs.filter fun m => m.involves u

/-- The distinct counterparts `u` has at least one message with. -/
def counterparts (msgs : List Message) (u : Nat) : List Nat :=
  ((userMsgs msgs u).map fun m => m.other u).dedup

/-- The group of messages of `u`'s conversation with counterpart `c`. -/
def groupOf (msgs : List Message) (u c : Nat) : List Message :=
  (userMsgs msgs u).filter fun m => m.other u == c

/-- The representative of `u`'s conversation with `c`: the group's message
with maximum timestamp, ties broken by id (`none` when the group is empty). -/
def repFor (msgs : List Message) (u c : Nat) : Option Message :=
  match groupOf msgs u c with
  | [] => none
  | m :: ms => some (pickNewest m ms)

/-- The conversation-list entry for counterpart `c`, built from the
representative message (content truncated to 100 characters). -/
def mkEntry (dn : Nat → Text) (msgs : List Message) (u c : Nat) : Option ConvEntry :=
  (repFor msgs u c).map fun rep => ⟨c, dn c, rep.content.take 100, rep.createdAt⟩

/-- Modelled from the spec: `listConversations(userId)` of the Conversation
Aggregator (spec §4.5); the backend implementation (`backend/src/main.py`) is
not in the source tree.  Scans the messages `u` takes part in, groups them by
counterpart, represents each group by its newest message (ties by id),
truncates the preview to 100 characters, and sorts the entries descending by
representative timestamp.  `dn` resolves a user id to its display name. -/
def listConversations (dn : Nat → Text) (msgs : List Message) (u : Nat) :
    List ConvEntry :=
  ((counterparts msgs u).filterMap (mkEntry dn msgs u)).insertionSort entryGE

theorem mem_userMsgs {msgs : List Message} {u : Nat} {m : Message} :
    m ∈ userMsgs msgs u ↔ m ∈ msgs ∧ m.involves u = true := by
  simp [userMsgs, List.mem_filter]

theorem mem_groupOf {msgs : List Message} {u c : Nat} {m : Message} :
    m ∈ groupOf msgs u c ↔ m ∈ msgs ∧ m.involves u = true ∧ m.other u = c := by
  simp [groupOf, mem_userMsgs, List.mem_filter, and_assoc]

theorem mem_counterparts {msgs : List Message} {u c : Nat} :
    c ∈ counterparts msgs u ↔ ∃ m ∈ msgs, m.involves u = true ∧ m.other u = c := by
  simp only [counterparts, List.mem_dedup, List.mem_map, mem_userMsgs]
  constructor
  · rintro ⟨m, ⟨hm, hinv⟩, rfl⟩
    exact ⟨m, hm, hinv, rfl⟩
  · rintro ⟨m, hm, hinv, rfl⟩
    exact ⟨m, ⟨hm, hinv⟩, rfl⟩

theorem repFor_spec {msgs : List Message} {u c : Nat} {rep : Message}
    (h : repFor msgs u c = some rep) :
    rep ∈ groupOf msgs u c ∧ ∀ m ∈ groupOf msgs u c, msgLeP m rep := by
  unfold repFor at h
  rcases hg : groupOf msgs u c with _ | ⟨m, ms⟩
  · rw [hg] at h; cases h
  · rw [hg] at h
    have hrep : rep = pickNewest m ms := (Option.some_injective _ h).symm
    subst hrep
    refine ⟨pickNewest_mem m ms, ?_⟩
    intro x hx
    rcases List.mem_cons.mp hx with rfl | hx
    · exact (pickNewest_ge x ms).1
    · exact (pickNewest_ge m ms).2 x hx

theorem repFor_some {msgs : List Message} {u c : Nat}
    (h : c ∈ counterparts msgs u) : ∃ rep, repFor msgs u c = some rep := by
  rcases mem_counterparts.mp h with ⟨m, hm, hinv, hoth⟩
  have hmem : m ∈ groupOf msgs u c := mem_groupOf.mpr ⟨hm, hinv, hoth⟩
  unfold repFor
  rcases hg : groupOf msgs u c with _ | ⟨x, xs⟩
  · rw [hg] at hmem; cases hmem
  · exact ⟨_, rfl⟩

theorem filterMap_counterpart_map {dn : Nat → Text} {msgs : List Message} {u : Nat} :
    ∀ cs : List Nat, (∀ c ∈ cs, ∃ e, mkEntry dn msgs u c = some e) →
      ((cs.filterMap (mkEntry dn msgs u)).map ConvEntry.counterpartId) = cs := by
  intro cs
  induction cs with
  | nil => intro _; rfl
  | cons c cs ih =>
    intro h
    rcases h c (List.mem_cons_self _ _) with ⟨e, he⟩
    have hid : e.counterpartId = c := by
      rcases hrep : repFor msgs u c with _ | rep
      · rw [mkEntry, hrep] at he; cases he
      · rw [mkEntry, hrep] at he
        cases (Option.some_injective _ he)
        rfl
    rw [List.filterMap_cons, he, List.map_cons, hid,
      ih (fun c' hc' => h c' (List.mem_cons_of_mem _ hc'))]

/-- C1: `listConversations(U)` has exactly one entry per distinct counterpart
with whom U has at least one message (so a counterpart with zero messages
never appears); each entry is built from that pair's message of maximum
timestamp (ties broken by id), with the content truncated to a 100-character
preview; and the entries are sorted descending by representative timestamp. -/
theorem listConversations_spec (dn : Nat → Text) (msgs : List Message) (u : Nat) :
    ((listConversations dn msgs u).map ConvEntry.counterpartId).Nodup ∧
    (∀ c, c ∈ (listConversations dn msgs u).map ConvEntry.counterpartId ↔
       ∃ m ∈ msgs, m.involves u = true ∧ m.other u = c) ∧
    (∀ e ∈ listConversations dn msgs u, ∃ rep,
       rep ∈ msgs ∧ rep.involves u = true ∧ rep.other u = e.counterpartId ∧
       e.lastMessageContent = rep.content.take 100 ∧
       e.lastMessageTime = rep.createdAt ∧
       e.counterpartDisplayName = dn e.counterpartId ∧
       ∀ m ∈ msgs, m.involves u = true → m.other u = e.counterpartId → msgLeP m rep) ∧
    (listConversations dn msgs u).Sorted entryGE := by
  have hall : ∀ c ∈ counterparts msgs u, ∃ e, mkEntry dn msgs u c = some e := by
    intro c hc
    rcases repFor_some hc with ⟨rep, hrep⟩
    exact ⟨_, by rw [mkEntry, hrep]; rfl⟩
  have hmapeq :
      (((counterparts msgs u).filterMap (mkEntry dn msgs u)).map ConvEntry.counterpartId)
        = counterparts msgs u :=
    filterMap_counterpart_map (counterparts msgs u) hall
  have hperm : List.Perm (listConversations dn msgs u)
      ((counterparts msgs u).filterMap (mkEntry dn msgs u)) :=
    List.perm_insertionSort entryGE _
  have hmapperm : List.Perm ((listConversations dn msgs u).map ConvEntry.counterpartId)
      (counterparts msgs u) := by
    rw [← hmapeq]
    exact hperm.map ConvEntry.counterpartId
  refine ⟨?_, ?_, ?_, ?_⟩
  · exact hmapperm.nodup_iff.mpr (List.nodup_dedup _)
  · intro c
    rw [hmapperm.mem_iff, mem_counterparts]
  · intro e he
    have he' : e ∈ (counterparts msgs u).filterMap (mkEntry dn msgs u) :=
      hperm.mem_iff.mp he
    rcases List.mem_filterMap.mp he' with ⟨c, _, hmk⟩
    rcases hrep : repFor msgs u c with _ | rep
    · rw [mkEntry, hrep] at hmk; cases hmk
    · rw [mkEntry, hrep] at hmk
      cases (Option.some_injective _ hmk)
      have hspec := repFor_spec hrep
      rcases mem_groupOf.mp hspec.1 with ⟨hm, hinv, hoth⟩
      refine ⟨rep, hm, hinv, hoth, rfl, rfl, rfl, ?_⟩
      intro m hmem hminv hmoth
      exact hspec.2 m (mem_groupOf.mpr ⟨hmem, hminv, hmoth⟩)
  · exact List.sorted_insertionSort entryGE _

theorem listConversations_spec_witness :
    ((listConversations (fun _ => "Bob".data)
        [⟨0, 1, 2, "Hey Bob".data, 10⟩, ⟨1, 1, 2, "See you".data, 11⟩] 1).map
      ConvEntry.counterpartId).Nodup ∧
    (listConversations (fun _ => "Bob".data)
        [⟨0, 1, 2, "Hey Bob".data, 10⟩, ⟨1, 1, 2, "See you".data, 11⟩] 1).Sorted entryGE :=
  ⟨(listConversations_spec (fun _ => "Bob".data)
      [⟨0, 1, 2, "Hey Bob".data, 10⟩, ⟨1, 1, 2, "See you".data, 11⟩] 1).1,
   (listConversations_spec (fun _ => "Bob".data)
      [⟨0, 1, 2, "Hey Bob".data, 10⟩, ⟨1, 1, 2, "See you".data, 11⟩] 1).2.2.2⟩

/-- A user identity record (spec §3): opaque unique id, login handle (private
credential), display name (public), password hash, creation timestamp. -/
structure User where
  id : Nat
  loginHandle : Text
  displayName : Text
  passwordHash : Nat
  createdAt : Nat
deriving DecidableEq, Repr

/-- Login-handle format rule (spec §4.1): 3–30 characters, alphanumeric or
underscore. -/
def validHandle (h : Text) : Bool :=
  decide (3 ≤ h.length) && decide (h.length ≤ 30) &&
    h.all fun c => c.isAlphanum || c == '_'

/-- Display-name rule (spec §3): 3–30 characters after trimming. -/
def validDisplayName (d : Text) : Bool :=
  decide (3 ≤ (trimText d).length) && decide ((trimText d).length ≤ 30)

/-- Password complexity policy (spec §4.1): 8–128 characters, at least one
uppercase, one lowercase, one digit, one symbol. -/
def validPassword (p : Text) : Bool :=
  decide (8 ≤ p.length) && decide (p.length ≤ 128) &&
    p.any Char.isUpper && p.any Char.isLower &&
    (p.any fun c => c.isDigit) && (p.any fun c => !c.isAlphanum)

/-- State of the credential store: the registered users and the next id. -/
structure CredStore where
  users : List User
  nextId : Nat
deriving DecidableEq, Repr

/-- Modelled from the spec: `register(loginHandle, displayName, rawPassword)`
of the Credential Store (spec §4.1); the backend implementation
(`backend/src/main.py`, `backend/src/schemas.py`) is not in the source tree.
`ValidationError` when a format/length/complexity rule fails, `ConflictError`
when the login handle already exists, otherwise stores the new user (display
name trimmed, only the password hash kept). -/
def register (hash : Text → Nat) (st : CredStore)
    (loginHandle displayName rawPassword : Text) (now : Nat) :
    Except Err User × CredStore :=
  if validHandle loginHandle && validDisplayName displayName &&
      validPassword rawPassword then
    if st.users.any fun u => u.loginHandle == loginHandle then (.error .conflict, st)
    else
      let u : User := ⟨st.nextId, loginHandle, trimText displayName, hash rawPassword, now⟩
      (.ok u, ⟨st.users ++ [u], st.nextId + 1⟩)
  else (.error .validation, st)

/-- The credential-store states reachable from the empty store by
registrations. -/
inductive Reachable (hash : Text → Nat) : CredStore → Prop where
  | empty : Reachable hash ⟨[], 0⟩
  | step {st} (h d p : Text) (now : Nat) : Reachable hash st →
      Reachable hash (register hash st h d p now).2

/-- The credential-store invariant: handles unique (case-sensitively), ids
unique, all ids below the next id. -/
def credInv (st : CredStore) : Prop :=
  (st.users.map User.loginHandle).Nodup ∧ (st.users.map User.id).Nodup ∧
  ∀ u ∈ st.users, u.id < st.nextId

theorem credInv_register (hash : Text → Nat) (st : CredStore)
    (h d p : Text) (now : Nat) (hinv : credInv st) :
    credInv (register hash st h d p now).2 := by
  unfold register
  by_cases hv : (validHandle h && validDisplayName d && validPassword p) = true
  · rw [if_pos hv]
    by_cases hex : (st.users.any fun u => u.loginHandle == h) = true
    · rw [if_pos hex]; exact hinv
    · rw [if_neg hex]
      obtain ⟨h1, h2, h3⟩ := hinv
      have hnot : ∀ u ∈ st.users, u.loginHandle ≠ h := by
        intro u hu heq
        exact hex (List.any_eq_true.mpr ⟨u, hu, by simp [heq]⟩)
      refine ⟨?_, ?_, ?_⟩
      · rw [List.map_append]
        simp only [List.map_cons, List.map_nil]
        rw [List.nodup_append]
        refine ⟨h1, List.nodup_singleton _, ?_⟩
        intro a ha hb
        rcases List.mem_singleton.mp hb with rfl
        rcases List.mem_map.mp ha with ⟨u, hu, rfl⟩
        exact hnot u hu rfl
      · rw [List.map_append]
        simp only [List.map_cons, List.map_nil]
        rw [List.nodup_append]
        refine ⟨h2, List.nodup_singleton _, ?_⟩
        intro a ha hb
        rcases List.mem_singleton.mp hb with rfl
        rcases List.mem_map.mp ha with ⟨u, hu, hid⟩
        exact absurd hid (Nat.ne_of_lt (h3 u hu))
      · intro u hu
        rcases List.mem_append.mp hu with hu | hu
        · exact Nat.lt_succ_of_lt (h3 u hu)
        · rcases List.mem_singleton.mp hu with rfl
          exact Nat.lt_succ_self _
  · rw [if_neg hv]; exact hinv

theorem reachable_credInv {hash : Text → Nat} {st : CredStore}
    (h : Reachable hash st) : credInv st := by
  induction h with
  | empty => exact ⟨List.nodup_nil, List.nodup_nil, by intro u hu; cases hu⟩
  | step h d p now _ ih => exact credInv_register _ _ h d p now ih

/-- C4 (amended): in every reachable credential-store state the login handles
are case-sensitively unique and the user ids are distinct; a register call
with otherwise-valid inputs whose login handle already exists fails with
`ConflictError` and leaves the store unchanged; and a successful registration
returns an id and a handle not present before. -/
theorem register_spec (hash : Text → Nat) :
    (∀ st : CredStore, Reachable hash st →
       (st.users.map User.loginHandle).Nodup ∧ (st.users.map User.id).Nodup) ∧
    (∀ (st : CredStore) (hnd d p : Text) (now : Nat),
       (st.users.any fun u => u.loginHandle == hnd) = true →
       (validHandle hnd && validDisplayName d && validPassword p) = true →
       register hash st hnd d p now = (.error .conflict, st)) ∧
    (∀ (st : CredStore) (hnd d p : Text) (now : Nat) (u : User) (st' : CredStore),
       Reachable hash st →
       register hash st hnd d p now = (.ok u, st') →
       u.id ∉ st.users.map User.id ∧ hnd ∉ st.users.map User.loginHandle ∧
       u.id = st.nextId ∧ u.loginHandle = hnd) := by
  refine ⟨?_, ?_, ?_⟩
  · intro st hr
    obtain ⟨h1, h2, _⟩ := reachable_credInv hr
    exact ⟨h1, h2⟩
  · intro st hnd d p now hex hv
    unfold register
    rw [if_pos hv, if_pos hex]
  · intro st hnd d p now u st' hr hok
    obtain ⟨_, _, hbound⟩ := reachable_credInv hr
    unfold register at hok
    by_cases hv : (validHandle hnd && validDisplayName d && validPassword p) = true
    · rw [if_pos hv] at hok
      by_cases hex : (st.users.any fun w => w.loginHandle == hnd) = true
      · rw [if_pos hex] at hok; cases hok
      · rw [if_neg hex] at hok
        injection hok with hval hst
        injection hval with hu
        subst hu
        refine ⟨?_, ?_, rfl, rfl⟩
        · intro hmem
          rcases List.mem_map.mp hmem with ⟨w, hw, hid⟩
          exact absurd hid (Nat.ne_of_lt (hbound w hw))
        · intro hmem
          rcases List.mem_map.mp hmem with ⟨w, hw, hh⟩
          exact hex (List.any_eq_true.mpr ⟨w, hw, by simp [hh]⟩)
    · rw [if_neg hv] at hok; cases hok

/-- A concrete stand-in for the password-hash function, used by concrete
instantiations (the hash algorithm itself is opaque to the core's logic). -/
def hashLen : Text → Nat := List.length

theorem register_spec_witness :
    ((CredStore.mk [User.mk 0 ("alice_1".data) ("Alice W".data) 8 0] 1).users.any
        fun u => u.loginHandle == "alice_1".data) = true ∧
    (validHandle ("alice_1".data) && validDisplayName ("Alice W".data) &&
      validPassword ("Secret1!".data)) = true ∧
    register hashLen (CredStore.mk [User.mk 0 ("alice_1".data) ("Alice W".data) 8 0] 1)
        ("alice_1".data) ("Alice W".data) ("Secret1!".data) 3 =
      (.error .conflict, CredStore.mk [User.mk 0 ("alice_1".data) ("Alice W".data) 8 0] 1) :=
  ⟨by decide, by decide,
   (register_spec hashLen).2.1
     (CredStore.mk [User.mk 0 ("alice_1".data) ("Alice W".data) 8 0] 1)
     ("alice_1".data) ("Alice W".data) ("Secret1!".data) 3 (by decide) (by decide)⟩

theorem register_conflict_counterexample :
    (((register hashLen ⟨[], 0⟩ ("alice_1".data) ("Alice W".data) ("Secret1!".data) 0).2).users.any
        fun u => u.loginHandle == "alice_1".data) = true ∧
    (register hashLen
        (register hashLen ⟨[], 0⟩ ("alice_1".data) ("Alice W".data) ("Secret1!".data) 0).2
        ("alice_1".data) ("Alice W".data) ("bad".data) 1).1 = .error .validation ∧
    Err.validation ≠ Err.conflict :=
  ⟨by decide, by rfl, by decide⟩

/-- Modelled from the spec: `verifyCredentials(loginHandle, rawPassword)` of
the Credential Store (spec §4.1); the backend implementation
(`backend/src/main.py`) is not in the source tree.  Looks up by login handle;
when the handle is absent or the stored hash does not match, the same generic
`AuthError` results. -/
def verifyCredentials (hash : Text → Nat) (users : List User) (handle pw : Text) :
    Except Err User :=
  match users.find? (fun u => u.loginHandle == handle) with
  | none => .error .auth
  | some u => if u.passwordHash == hash pw then .ok u else .error .auth

/-- C6: `verifyCredentials` returns the same generic `AuthError` whether the
login handle does not exist or the stored hash does not match; in particular
a run on a store without the user and a run on a store with a different
password produce identical error results. -/
theorem verifyCredentials_indistinguishable (hash : Text → Nat) :
    (∀ (users : List User) (handle pw : Text),
       users.find? (fun u => u.loginHandle == handle) = none →
       verifyCredentials hash users handle pw = .error .auth) ∧
    (∀ (users : List User) (handle pw : Text) (u : User),
       users.find? (fun u => u.loginHandle == handle) = some u →
       u.passwordHash ≠ hash pw →
       verifyCredentials hash users handle pw = .error .auth) ∧
    (∀ (users1 users2 : List User) (handle pw1 pw2 : Text) (u : User),
       users1.find? (fun u => u.loginHandle == handle) = none →
       users2.find? (fun u => u.loginHandle == handle) = some u →
       u.passwordHash ≠ hash pw2 →
       verifyCredentials hash users1 handle pw1 =
         verifyCredentials hash users2 handle pw2) := by
  have habsent : ∀ (users : List User) (handle pw : Text),
      users.find? (fun u => u.loginHandle == handle) = none →
      verifyCredentials hash users handle pw = .error .auth := by
    intro users handle pw h
    unfold verifyCredentials
    rw [h]
  have hmismatch : ∀ (users : List User) (handle pw : Text) (u : User),
      users.find? (fun u => u.loginHandle == handle) = some u →
      u.passwordHash ≠ hash pw →
      verifyCredentials hash users handle pw = .error .auth := by
    intro users handle pw u h hne
    simp only [verifyCredentials, h]
    rw [if_neg (by simpa using hne)]
  refine ⟨habsent, hmismatch, ?_⟩
  intro users1 users2 handle pw1 pw2 u h1 h2 hne
  rw [habsent users1 handle pw1 h1, hmismatch users2 handle pw2 u h2 hne]

theorem verifyCredentials_indistinguishable_witness :
    (([] : List User).find? (fun u => u.loginHandle == "alice".data) = none) ∧
    ([User.mk 0 ("alice".data) ("Alice W".data) 8 0].find?
        (fun u => u.loginHandle == "alice".data) = some (User.mk 0 ("alice".data) ("Alice W".data) 8 0)) ∧
    ((User.mk 0 ("alice".data) ("Alice W".data) 8 0).passwordHash ≠ hashLen ("wrongpassword".data)) ∧
    verifyCredentials hashLen [] ("alice".data) ("Secret1!".data) =
      verifyCredentials hashLen [User.mk 0 ("alice".data) ("Alice W".data) 8 0]
        ("alice".data) ("wrongpassword".data) :=
  ⟨by decide, by decide, by decide,
   (verifyCredentials_indistinguishable hashLen).2.2 [] [User.mk 0 ("alice".data) ("Alice W".data) 8 0]
     ("alice".data) ("Secret1!".data) ("wrongpassword".data)
     (User.mk 0 ("alice".data) ("Alice W".data) 8 0) (by decide) (by decide) (by decide)⟩

/-- A session record (spec §3): opaque token, owning user, creation time,
expiry time, and whether it has been revoked by logout. -/
structure Session where
  token : Nat
  userId : Nat
  createdAt : Nat
  expiresAt : Nat
  revoked : Bool
deriving DecidableEq, Repr

/-- State of the session manager: the stored sessions (newest first). -/
structure SessionStore where
  sessions : List Session
deriving DecidableEq, Repr

/-- Modelled from the spec: `createSession(userId)` of the Session Manager
(spec §4.2); the backend implementation (`backend/src/main.py`) is not in the
source tree.  Stores a new session and returns the token plus its absolute
expiry; the token is supplied by the (external) high-entropy generator. -/
def createSession (st : SessionStore) (userId token now dur : Nat) :
    Nat × Nat × SessionStore :=
  (token, now + dur, ⟨⟨token, userId, now, now + dur, false⟩ :: st.sessions⟩)

/-- Modelled from the spec: `resolve(token)` of the Session Manager
(spec §4.2); fails with the generic `AuthError` when the token is unknown,
revoked, or past expiry. -/
def resolve (st : SessionStore) (token now : Nat) : Except Err Nat :=
  match st.sessions.find? (fun s => s.token == token) with
  | none => .error .auth
  | some s =>
    if s.revoked then .error .auth
    else if s.expiresAt ≤ now then .error .auth
    else .ok s.userId

/-- Modelled from the spec: `revoke(token)` of the Session Manager
(spec §4.2); idempotent, marks the session invalid. -/
def revoke (st : SessionStore) (token : Nat) : SessionStore :=
  ⟨st.sessions.map fun s => if s.token == token then { s with revoked := true } else s⟩

/-- Modelled from the spec: login (spec §4.1/§4.2): verifies the credentials
and on success creates a session; returns the owning user id, the absolute
expiry and the new session store. -/
def login (hash : Text → Nat) (users : List User) (st : SessionStore)
    (handle pw : Text) (token now dur : Nat) :
    Except Err (Nat × Nat × SessionStore) :=
  match verifyCredentials hash users handle pw with
  | .error e => .error e
  | .ok u => .ok (u.id, now + dur, (createSession st u.id token now dur).2.2)

/-- A session-manager operation that may occur after a login: another session
creation, or a logout of some token. -/
inductive SOp where
  | create (userId token now dur : Nat)
  | revoke (token : Nat)

def applyOp (st : SessionStore) : SOp → SessionStore
  | .create userId token now dur => (createSession st userId token now dur).2.2
  | .revoke token => revoke st token

def applyOps (st : SessionStore) : List SOp → SessionStore
  | [] => st
  | op :: ops => applyOps (applyOp st op) ops

/-- Whether the operation creates a session with token `t` (ruled out for the
token under study by the high-entropy-token assumption). -/
def createsToken (t : Nat) : SOp → Bool
  | .create _ token _ _ => token == t
  | .revoke _ => false

/-- Whether the operation revokes token `t`. -/
def revokesToken (t : Nat) : SOp → Bool
  | .revoke token => token == t
  | .create _ _ _ _ => false

theorem find_session_create {st : SessionStore} {t : Nat} (uid token now dur : Nat)
    (h : (token == t) = false) :
    ((createSession st uid token now dur).2.2).sessions.find? (fun s => s.token == t) =
      st.sessions.find? (fun s => s.token == t) := by
  simp only [createSession]
  rw [List.find?_cons_of_neg]
  simp [h]

theorem find_session_revoke (st : SessionStore) (t tr : Nat) :
    (revoke st tr).sessions.find? (fun s => s.token == t) =
      (st.sessions.find? (fun s => s.token == t)).map
        (fun s => if s.token == tr then { s with revoked := true } else s) := by
  unfold revoke
  rw [List.find?_map]
  have heq : ((fun s : Session => s.token == t) ∘
      (fun s : Session => if s.token == tr then { s with revoked := true } else s)) =
      fun s : Session => s.token == t := by
    funext s
    by_cases hc : (s.token == tr) = true
    · simp [Function.comp, hc]
    · simp [Function.comp, hc]
  rw [heq]

theorem find_applyOps_untouched {t : Nat} :
    ∀ (ops : List SOp) (st : SessionStore) (s : Session),
      st.sessions.find? (fun x => x.token == t) = some s → s.token = t →
      (∀ op ∈ ops, createsToken t op = false) →
      (∀ op ∈ ops, revokesToken t op = false) →
      (applyOps st ops).sessions.find? (fun x => x.token == t) = some s := by
  intro ops
  induction ops with
  | nil => intro st s h _ _ _; exact h
  | cons op ops ih =>
    intro st s h htok hc hr
    have hc' := hc op (List.mem_cons_self _ _)
    have hr' := hr op (List.mem_cons_self _ _)
    have hstep : (applyOp st op).sessions.find? (fun x => x.token == t) = some s := by
      cases op with
      | create uid token now dur =>
        simp only [applyOp]
        rw [find_session_create uid token now dur (by simpa [createsToken] using hc')]
        exact h
      | revoke tr =>
        simp only [applyOp]
        rw [find_session_revoke st t tr, h]
        have hne : ¬((s.token == tr) = true) := by
          simp only [revokesToken] at hr'
          rw [htok]
          simp only [beq_eq_false_iff_ne] at hr'
          simpa using Ne.symm hr'
        show some (if (s.token == tr) = true then { s with revoked := true } else s) = some s
        rw [if_neg hne]
    exact ih (applyOp st op) s hstep htok
      (fun o ho => hc o (List.mem_cons_of_mem _ ho))
      (fun o ho => hr o (List.mem_cons_of_mem _ ho))

theorem find_applyOps_token {t : Nat} :
    ∀ (ops : List SOp) (st : SessionStore) (s : Session),
      st.sessions.find? (fun x => x.token == t) = some s → s.token = t →
      (∀ op ∈ ops, createsToken t op = false) →
      ∃ s', (applyOps st ops).sessions.find? (fun x => x.token == t) = some s' ∧
        s'.token = t := by
  intro ops
  induction ops with
  | nil => intro st s h htok _; exact ⟨s, h, htok⟩
  | cons op ops ih =>
    intro st s h htok hc
    have hc' := hc op (List.mem_cons_self _ _)
    cases op with
    | create uid token now dur =>
      have hstep : (applyOp st (SOp.create uid token now dur)).sessions.find?
          (fun x => x.token == t) = some s := by
        simp only [applyOp]
        rw [find_session_create uid token now dur (by simpa [createsToken] using hc')]
        exact h
      exact ih (applyOp st (SOp.create uid token now dur)) s hstep htok
        (fun o ho => hc o (List.mem_cons_of_mem _ ho))
    | revoke tr =>
      have hstep : (applyOp st (SOp.revoke tr)).sessions.find? (fun x => x.token == t) =
          some (if s.token == tr then { s with revoked := true } else s) := by
        simp only [applyOp]
        rw [find_session_revoke st t tr, h]
        rfl
      have htok' : (if s.token == tr then { s with revoked := true } else s).token = t := by
        by_cases hcase : (s.token == tr) = true
        · rw [if_pos hcase]; exact htok
        · rw [if_neg hcase]; exact htok
      exact ih (applyOp st (SOp.revoke tr)) _ hstep htok'
        (fun o ho => hc o (List.mem_cons_of_mem _ ho))

theorem find_applyOps_stays_revoked {t : Nat} :
    ∀ (ops : List SOp) (st : SessionStore) (s : Session),
      st.sessions.find? (fun x => x.token == t) = some s → s.token = t →
      s.revoked = true →
      (∀ op ∈ ops, createsToken t op = false) →
      ∃ s', (applyOps st ops).sessions.find? (fun x => x.token == t) = some s' ∧
        s'.revoked = true := by
  intro ops
  induction ops with
  | nil => intro st s h _ hrev _; exact ⟨s, h, hrev⟩
  | cons op ops ih =>
    intro st s h htok hrev hc
    have hc' := hc op (List.mem_cons_self _ _)
    cases op with
    | create uid token now dur =>
      have hstep : (applyOp st (SOp.create uid token now dur)).sessions.find?
          (fun x => x.token == t) = some s := by
        simp only [applyOp]
        rw [find_session_create uid token now dur (by simpa [createsToken] using hc')]
        exact h
      exact ih (applyOp st (SOp.create uid token now dur)) s hstep htok hrev
        (fun o ho => hc o (List.mem_cons_of_mem _ ho))
    | revoke tr =>
      have hstep : (applyOp st (SOp.revoke tr)).sessions.find? (fun x => x.token == t) =
          some (if s.token == tr then { s with revoked := true } else s) := by
        simp only [applyOp]
        rw [find_session_revoke st t tr, h]
        rfl
      have htok' : (if s.token == tr then { s with revoked := true } else s).token = t := by
        by_cases hcase : (s.token == tr) = true
        · rw [if_pos hcase]; exact htok
        · rw [if_neg hcase]; exact htok
      have hrev' : (if s.token == tr then { s with revoked := true } else s).revoked = true := by
        by_cases hcase : (s.token == tr) = true
        · rw [if_pos hcase]
        · rw [if_neg hcase]; exact hrev
      exact ih (applyOp st (SOp.revoke tr)) _ hstep htok' hrev'
        (fun o ho => hc o (List.mem_cons_of_mem _ ho))

/-- C5: a session created by a successful login resolves to the owning user id
at every time before its expiry, as long as no operation revokes its token;
after its expiry, or after a revoke of its token (followed by any further
operations), `resolve` always fails with the generic `AuthError`; and an
expired or revoked token is indistinguishable from a nonexistent one, all
these resolves returning the very `AuthError` an empty store returns. -/
theorem session_lifecycle (hash : Text → Nat) (users : List User) (st : SessionStore)
    (handle pw : Text) (token now dur uid expiry : Nat) (st1 : SessionStore)
    (hlogin : login hash users st handle pw token now dur = .ok (uid, expiry, st1)) :
    expiry = now + dur ∧
    (∀ ops : List SOp, (∀ op ∈ ops, createsToken token op = false) →
       (∀ op ∈ ops, revokesToken token op = false) →
       (∀ t, t < expiry → resolve (applyOps st1 ops) token t = .ok uid) ∧
       (∀ t, expiry ≤ t → resolve (applyOps st1 ops) token t = .error .auth)) ∧
    (∀ ops1 ops2 : List SOp,
       (∀ op ∈ ops1, createsToken token op = false) →
       (∀ op ∈ ops2, createsToken token op = false) →
       ∀ t, resolve (applyOps (revoke (applyOps st1 ops1) token) ops2) token t =
         .error .auth) ∧
    (∀ tok t, resolve ⟨[]⟩ tok t = .error .auth) := by
  unfold login at hlogin
  rcases hv : verifyCredentials hash users handle pw with e | u <;> rw [hv] at hlogin
  · cases hlogin
  have h1 : u.id = uid ∧ now + dur = expiry ∧
      (createSession st u.id token now dur).2.2 = st1 := by
    injection hlogin with h
    injection h with ha hb
    injection hb with hb hc
    exact ⟨ha, hb, hc⟩
  obtain ⟨huid, hexp, hst1⟩ := h1
  have hfind : st1.sessions.find? (fun s => s.token == token) =
      some ⟨token, uid, now, now + dur, false⟩ := by
    rw [← hst1]
    simp only [createSession]
    rw [List.find?_cons_of_pos]
    · rw [huid]
    · simp
  refine ⟨hexp.symm, ?_, ?_, ?_⟩
  · intro ops hc hr
    have hpres := find_applyOps_untouched ops st1 ⟨token, uid, now, now + dur, false⟩
      hfind rfl hc hr
    constructor
    · intro t ht
      rw [← hexp] at ht
      simp [resolve, hpres, Nat.not_le.mpr ht]
    · intro t ht
      rw [← hexp] at ht
      simp [resolve, hpres, ht]
  · intro ops1 ops2 hc1 hc2 t
    obtain ⟨s1, hs1, hs1tok⟩ := find_applyOps_token ops1 st1
      ⟨token, uid, now, now + dur, false⟩ hfind rfl hc1
    have hrevfind : (revoke (applyOps st1 ops1) token).sessions.find?
        (fun s => s.token == token) = some { s1 with revoked := true } := by
      rw [find_session_revoke _ token token, hs1]
      simp [hs1tok]
    obtain ⟨s2, hs2, hs2rev⟩ := find_applyOps_stays_revoked ops2
      (revoke (applyOps st1 ops1) token) { s1 with revoked := true }
      hrevfind (by simpa using hs1tok) rfl hc2
    simp [resolve, hs2, hs2rev]
  · intro tok t
    simp [resolve, List.find?]

theorem session_lifecycle_witness :
    (login hashLen [User.mk 7 ("alice".data) ("Alice W".data) 8 0] ⟨[]⟩
        ("alice".data) ("Secret1!".data) 42 100 50 =
      .ok (7, 150, ⟨[⟨42, 7, 100, 150, false⟩]⟩)) ∧
    (150 = (100 : Nat) + 50 ∧
    (∀ ops : List SOp, (∀ op ∈ ops, createsToken 42 op = false) →
       (∀ op ∈ ops, revokesToken 42 op = false) →
       (∀ t, t < 150 → resolve (applyOps ⟨[⟨42, 7, 100, 150, false⟩]⟩ ops) 42 t = .ok 7) ∧
       (∀ t, 150 ≤ t → resolve (applyOps ⟨[⟨42, 7, 100, 150, false⟩]⟩ ops) 42 t =
         .error .auth)) ∧
    (∀ ops1 ops2 : List SOp,
       (∀ op ∈ ops1, createsToken 42 op = false) →
       (∀ op ∈ ops2, createsToken 42 op = false) →
       ∀ t, resolve (applyOps (revoke (applyOps ⟨[⟨42, 7, 100, 150, false⟩]⟩ ops1) 42) ops2)
         42 t = .error .auth) ∧
    (∀ tok t, resolve ⟨[]⟩ tok t = .error .auth)) :=
  ⟨by rfl,
   session_lifecycle hashLen [User.mk 7 ("alice".data) ("Alice W".data) 8 0] ⟨[]⟩
     ("alice".data) ("Secret1!".data) 42 100 50 7 150 ⟨[⟨42, 7, 100, 150, false⟩]⟩
     (by rfl)⟩

/-- A lexed LIKE-pattern token: the `%` wildcard (any sequence), the `_`
wildcard (any one character), or a literal character. -/
inductive Tok where
  | any
  | one
  | lit (c : Char)
deriving DecidableEq, Repr

/-- Lex a raw LIKE pattern: a backslash escapes the following character to a
literal, `%` and `_` are wildcards, everything else is literal. -/
def lexPattern : Text → List Tok
  | [] => []
  | c :: ps =>
    if c == '\\' then
      match ps with
      | [] => [.lit c]
      | c2 :: ps2 => .lit c2 :: lexPattern ps2
    else if c == '%' then .any :: lexPattern ps
    else if c == '_' then .one :: lexPattern ps
    else .lit c :: lexPattern ps

/-- Match a lexed LIKE pattern against a text; the `%` wildcard matches when
the remaining pattern matches some suffix. -/
def tokMatch : List Tok → Text → Bool
  | [], s => s.isEmpty
  | .any :: ps, s => s.tails.any fun s2 => tokMatch ps s2
  | .one :: ps, s =>
    match s with
    | [] => false
    | _ :: s2 => tokMatch ps s2
  | .lit c :: ps, s =>
    match s with
    | [] => false
    | c2 :: s2 => c == c2 && tokMatch ps s2

/-- The substring-match mechanism underlying the user directory (spec §4.3):
a SQL LIKE match with `\` as escape character. -/
def likeMatch (p s : Text) : Bool :=
  tokMatch (lexPattern p) s

/-- Escape the wildcard-significant characters of a query so they match only
literally (spec §4.3). -/
def escapeLike : Text → Text
  | [] => []
  | c :: cs =>
    if c == '%' || c == '_' || c == '\\' then '\\' :: c :: escapeLike cs
    else c :: escapeLike cs

/-- Character-wise lowercasing (the case-insensitivity of the search). -/
def lowerText (s : Text) : Text :=
  s.map Char.toLower

theorem lexPattern_escape (q r : Text) :
    lexPattern (escapeLike q ++ r) = q.map Tok.lit ++ lexPattern r := by
  induction q with
  | nil => rfl
  | cons c cs ih =>
    by_cases hc : (c == '%' || c == '_' || c == '\\') = true
    · have he : escapeLike (c :: cs) = '\\' :: c :: escapeLike cs := by
        simp only [escapeLike, hc, if_true]
      rw [he, List.cons_append, List.cons_append]
      show Tok.lit c :: lexPattern (escapeLike cs ++ r) = _
      rw [ih, List.map_cons, List.cons_append]
    · have h1 : ¬((c == '\\') = true) := fun h => hc (by rw [h]; simp)
      have h2 : ¬((c == '%') = true) := fun h => hc (by rw [h]; simp)
      have h3 : ¬((c == '_') = true) := fun h => hc (by rw [h]; simp)
      have hcf : (c == '%' || c == '_' || c == '\\') = false := by
        rcases Bool.eq_false_or_eq_true (c == '%' || c == '_' || c == '\\') with h | h
        · exact absurd h hc
        · exact h
      have he : escapeLike (c :: cs) = c :: escapeLike cs := by
        simp only [escapeLike, hcf]
        rw [if_neg (by decide)]
      rw [he, List.cons_append]
      have hf1 : (c == '\\') = false := by
        rcases Bool.eq_false_or_eq_true (c == '\\') with h | h
        · exact absurd h h1
        · exact h
      have hf2 : (c == '%') = false := by
        rcases Bool.eq_false_or_eq_true (c == '%') with h | h
        · exact absurd h h2
        · exact h
      have hf3 : (c == '_') = false := by
        rcases Bool.eq_false_or_eq_true (c == '_') with h | h
        · exact absurd h h3
        · exact h
      have hl : lexPattern (c :: (escapeLike cs ++ r)) =
          Tok.lit c :: lexPattern (escapeLike cs ++ r) := by
        rw [lexPattern.eq_def]
        simp [hf1, hf2, hf3]
      rw [hl, ih, List.map_cons, List.cons_append]

theorem tokMatch_star_iff (ps : List Tok) (s : Text) :
    tokMatch (Tok.any :: ps) s = true ↔ ∃ s2, s2 <:+ s ∧ tokMatch ps s2 = true := by
  show (s.tails.any fun s2 => tokMatch ps s2) = true ↔ _
  rw [List.any_eq_true]
  constructor
  · rintro ⟨s2, hmem, h⟩
    exact ⟨s2, (List.mem_tails _ _).mp hmem, h⟩
  · rintro ⟨s2, hsuf, h⟩
    exact ⟨s2, (List.mem_tails _ _).mpr hsuf, h⟩

theorem tokMatch_lits_any (q : Text) :
    ∀ s : Text, tokMatch (q.map Tok.lit ++ [Tok.any]) s = true ↔ q <+: s := by
  induction q with
  | nil =>
    intro s
    constructor
    · intro _
      exact ⟨s, rfl⟩
    · intro _
      show (s.tails.any fun s2 => tokMatch [] s2) = true
      rw [List.any_eq_true]
      refine ⟨[], (List.mem_tails _ _).mpr ⟨s, by simp⟩, rfl⟩
  | cons c cs ih =>
    intro s
    cases s with
    | nil =>
      simp only [List.map_cons, List.cons_append]
      constructor
      · intro h
        exact absurd h (by simp [tokMatch])
      · intro h
        rcases h with ⟨t, ht⟩
        cases ht
    | cons c2 s2 =>
      simp only [List.map_cons, List.cons_append]
      show (c == c2 && tokMatch (cs.map Tok.lit ++ [Tok.any]) s2) = true ↔ _
      rw [Bool.and_eq_true, beq_iff_eq, ih s2, List.cons_prefix_cons]

theorem likeMatch_escape_iff (q s : Text) :
    likeMatch ('%' :: (escapeLike q ++ ['%'])) s = true ↔ q <:+: s := by
  unfold likeMatch
  have hlex : lexPattern ('%' :: (escapeLike q ++ ['%'])) =
      Tok.any :: (q.map Tok.lit ++ [Tok.any]) := by
    have ha : ('%' == '\\') = false := by decide
    have hb : ('%' == '%') = true := by decide
    have h0 : lexPattern ('%' :: (escapeLike q ++ ['%'])) =
        Tok.any :: lexPattern (escapeLike q ++ ['%']) := by
      rw [lexPattern.eq_def]
      simp
    rw [h0, lexPattern_escape q ['%']]
    have h2 : lexPattern ['%'] = [Tok.any] := by decide
    rw [h2]
  rw [hlex, tokMatch_star_iff, List.infix_iff_prefix_suffix]
  constructor
  · rintro ⟨s2, hsuf, h⟩
    exact ⟨s2, (tokMatch_lits_any q s2).mp h, hsuf⟩
  · rintro ⟨t, hpre, hsuf⟩
    exact ⟨t, hsuf, (tokMatch_lits_any q t).mpr hpre⟩

/-- A directory search result (spec §4.3/§6): only a user id and a display
name. -/
structure SearchResult where
  id : Nat
  displayName : Text
deriving DecidableEq, Repr

/-- The LIKE pattern built from a search query: both sides lowered, wildcard
characters escaped, wrapped in `%` for a substring match. -/
def searchPattern (q : Text) : Text :=
  '%' :: (escapeLike (lowerText q) ++ ['%'])

/-- Whether a user's display name matches the query (case-insensitively, the
query taken literally). -/
def matchesQuery (q : Text) (u : User) : Bool :=
  likeMatch (searchPattern q) (lowerText u.displayName)

/-- Modelled from the spec: `search(requestingUserId, query, limit)` of the
User Directory (spec §4.3); the backend implementation
(`backend/src/main.py`) is not in the source tree.  `ValidationError` when
the query is empty after trim or over 50 characters; otherwise a
case-insensitive substring match against display names only (wildcard
characters escaped), with the limit clamped to 50 (default 20). -/
def search (users : List User) (q : Text) (lim : Option Nat) :
    Except Err (List SearchResult) :=
  if (trimText q).length = 0 ∨ 50 < q.length then .error .validation
  else
    .ok (((users.filter (matchesQuery q)).map fun u =>
      SearchResult.mk u.id u.displayName).take (min (lim.getD 20) 50))

/-- Modelled from the spec: the search endpoint requires a resolved session
(spec §4.3), else the generic `AuthError`. -/
def searchHandler (sess : SessionStore) (token now : Nat) (users : List User)
    (q : Text) (lim : Option Nat) : Except Err (List SearchResult) :=
  match resolve sess token now with
  | .error e => .error e
  | .ok _ => search users q lim

theorem search_core_proj (q : Text) :
    ∀ us1 us2 : List User,
      us1.map (fun u => (u.id, u.displayName)) =
        us2.map (fun u => (u.id, u.displayName)) →
      ((us1.filter (matchesQuery q)).map fun u => SearchResult.mk u.id u.displayName) =
        ((us2.filter (matchesQuery q)).map fun u => SearchResult.mk u.id u.displayName) := by
  intro us1
  induction us1 with
  | nil =>
    intro us2 h
    cases us2 with
    | nil => rfl
    | cons v vs => simp at h
  | cons u us ih =>
    intro us2 h
    cases us2 with
    | nil => simp at h
    | cons v vs =>
      simp only [List.map_cons, List.cons.injEq, Prod.mk.injEq] at h
      obtain ⟨⟨hid, hdn⟩, htail⟩ := h
      have hmq : matchesQuery q u = matchesQuery q v := by
        unfold matchesQuery
        rw [hdn]
      by_cases hm : matchesQuery q u = true
      · rw [List.filter_cons_of_pos hm, List.filter_cons_of_pos (hmq ▸ hm)]
        simp only [List.map_cons]
        rw [ih vs htail, hid, hdn]
      · rw [List.filter_cons_of_neg (by simpa using hm),
          List.filter_cons_of_neg (by simp [← hmq, hm])]
        exact ih vs htail

/-- C7: the search output is computed from user ids and display names only:
two stores that differ only in login handles (or password hashes) produce
identical output, both for the core search and for the authenticated
handler; and every returned entry consists of exactly the id and display
name of some stored user (login handles are never matched nor returned). -/
theorem search_no_handle_leak :
    (∀ (users1 users2 : List User) (q : Text) (lim : Option Nat),
       users1.map (fun u => (u.id, u.displayName)) =
         users2.map (fun u => (u.id, u.displayName)) →
       search users1 q lim = search users2 q lim) ∧
    (∀ (sess : SessionStore) (token now : Nat) (users1 users2 : List User)
       (q : Text) (lim : Option Nat),
       users1.map (fun u => (u.id, u.displayName)) =
         users2.map (fun u => (u.id, u.displayName)) →
       searchHandler sess token now users1 q lim =
         searchHandler sess token now users2 q lim) ∧
    (∀ (users : List User) (q : Text) (lim : Option Nat) (out : List SearchResult),
       search users q lim = .ok out →
       ∀ e ∈ out, ∃ u ∈ users, e.id = u.id ∧ e.displayName = u.displayName) := by
  have hcore : ∀ (users1 users2 : List User) (q : Text) (lim : Option Nat),
      users1.map (fun u => (u.id, u.displayName)) =
        users2.map (fun u => (u.id, u.displayName)) →
      search users1 q lim = search users2 q lim := by
    intro users1 users2 q lim h
    unfold search
    by_cases hval : (trimText q).length = 0 ∨ 50 < q.length
    · rw [if_pos hval, if_pos hval]
    · rw [if_neg hval, if_neg hval, search_core_proj q users1 users2 h]
  refine ⟨hcore, ?_, ?_⟩
  · intro sess token now users1 users2 q lim h
    unfold searchHandler
    rcases resolve sess token now with e | uid
    · rfl
    · exact hcore users1 users2 q lim h
  · intro users q lim out hok e he
    unfold search at hok
    by_cases hval : (trimText q).length = 0 ∨ 50 < q.length
    · rw [if_pos hval] at hok
      cases hok
    · rw [if_neg hval] at hok
      injection hok with hout
      rw [← hout] at he
      have he2 := List.take_subset _ _ he
      rcases List.mem_map.mp he2 with ⟨u, hu, rfl⟩
      exact ⟨u, List.mem_of_mem_filter hu, rfl, rfl⟩

theorem search_no_handle_leak_witness :
    ([User.mk 1 ("alice_secret".data) ("Alice W".data) 8 0].map
        (fun u => (u.id, u.displayName)) =
      [User.mk 1 ("zzz_other_handle".data) ("Alice W".data) 9 0].map
        (fun u => (u.id, u.displayName))) ∧
    search [User.mk 1 ("alice_secret".data) ("Alice W".data) 8 0] ("Alice".data) (some 20) =
      search [User.mk 1 ("zzz_other_handle".data) ("Alice W".data) 9 0] ("Alice".data) (some 20) :=
  ⟨by decide,
   (search_no_handle_leak).1
     [User.mk 1 ("alice_secret".data) ("Alice W".data) 8 0]
     [User.mk 1 ("zzz_other_handle".data) ("Alice W".data) 9 0]
     ("Alice".data) (some 20) (by decide)⟩

/-- C8: the search is case-insensitive — two queries with the same
lowercasing (both passing validation) give identical results — and the match
semantics is exactly a literal, case-insensitive substring test: a
wildcard-significant character in the query matches only its literal
occurrences, never as a wildcard. -/
theorem search_case_insensitive_literal :
    (∀ (users : List User) (q1 q2 : Text) (lim : Option Nat),
       lowerText q1 = lowerText q2 →
       (trimText q1).length ≠ 0 → q1.length ≤ 50 →
       (trimText q2).length ≠ 0 → q2.length ≤ 50 →
       search users q1 lim = search users q2 lim) ∧
    (∀ (q : Text) (u : User),
       matchesQuery q u = true ↔ lowerText q <:+: lowerText u.displayName) := by
  have hmq : ∀ (q : Text) (u : User),
      matchesQuery q u = true ↔ lowerText q <:+: lowerText u.displayName := by
    intro q u
    unfold matchesQuery searchPattern
    exact likeMatch_escape_iff (lowerText q) (lowerText u.displayName)
  refine ⟨?_, hmq⟩
  intro users q1 q2 lim hlow h1 h2 h3 h4
  unfold search
  rw [if_neg (by push_neg; exact ⟨h1, by omega⟩),
    if_neg (by push_neg; exact ⟨h3, by omega⟩)]
  have hfun : users.filter (matchesQuery q1) = users.filter (matchesQuery q2) := by
    apply List.filter_congr
    intro u _
    unfold matchesQuery searchPattern
    rw [hlow]
  rw [hfun]

theorem search_case_insensitive_literal_witness :
    (lowerText ("ALICE".data) = lowerText ("alice".data)) ∧
    ((trimText ("ALICE".data)).length ≠ 0) ∧ (("ALICE".data).length ≤ 50) ∧
    ((trimText ("alice".data)).length ≠ 0) ∧ (("alice".data).length ≤ 50) ∧
    search [User.mk 1 ("alice".data) ("Alice Wonderland".data) 8 0]
        ("ALICE".data) (some 20) =
      search [User.mk 1 ("alice".data) ("Alice Wonderland".data) 8 0]
        ("alice".data) (some 20) ∧
    (matchesQuery ("a%c".data) (User.mk 2 ("bob".data) ("abc".data) 8 0) = true ↔
      lowerText ("a%c".data) <:+: lowerText ("abc".data)) :=
  ⟨by decide, by decide, by decide, by decide, by decide,
   (search_case_insensitive_literal).1
     [User.mk 1 ("alice".data) ("Alice Wonderland".data) 8 0]
     ("ALICE".data) ("alice".data) (some 20)
     (by decide) (by decide) (by decide) (by decide) (by decide),
   (search_case_insensitive_literal).2 ("a%c".data)
     (User.mk 2 ("bob".data) ("abc".data) 8 0)⟩

/-- The outcome that the browser `fetch` presents to an API wrapper: the
promise rejects (network/transport error), or an HTTP response arrives with a
status code and a parsed JSON body. -/
inductive Fetch (α : Type) where
  | netError
  | response (status : Nat) (body : α)
deriving DecidableEq, Repr

/-- `res.ok` of the Fetch API: the status is in 200..299. -/
def statusOk (status : Nat) : Bool :=
  decide (200 ≤ status) && decide (status < 300)

/-- A conversation row as typed by the frontend
(`Conversation` in `frontend/src/api/utils.ts`). -/
structure ConvRow where
  id : Text
  profile_name : Text
  last_message : Option Text
  last_message_time : Option Text
deriving DecidableEq, Repr

/-- A user-search row as expected by `findProfilesByName`
(`SearchResult` in `frontend/src/api/utils.ts`). -/
structure SearchRow where
  id : Text
  profile_name : Text
deriving DecidableEq, Repr

/-- The `try`-block of `getConversations`
(`frontend/src/api/messages.ts`): a 404 yields an empty list, any other
non-OK response throws, an OK response yields the parsed body; a rejected
fetch is also a throw inside the `try`. -/
def getConversationsTry : Fetch (List ConvRow) → Except Unit (List ConvRow)
  | .netError => .error ()
  | .response status body =>
    if status == 404 then .ok []
    else if statusOk status then .ok body
    else .error ()

/-- `getConversations` of `frontend/src/api/messages.ts`: the whole `try`
body is wrapped in a catch that turns any thrown error into an empty list,
so the caller always receives a plain list. -/
def getConversations (f : Fetch (List ConvRow)) : List ConvRow :=
  match getConversationsTry f with
  | .ok l => l
  | .error _ => []

/-- A JSON body that is either an array of search rows or some other shape
(the `Array.isArray` guard of `findProfilesByName`). -/
inductive JsonVal where
  | arr (rows : List SearchRow)
  | nonArray
deriving DecidableEq, Repr

/-- The `try`-block of `findProfilesByName`
(`frontend/src/api/messages.ts`): 404 yields an empty list, other non-OK
responses throw, an OK response yields the body when it is an array and an
empty list otherwise. -/
def findProfilesByNameTry : Fetch JsonVal → Except Unit (List SearchRow)
  | .netError => .error ()
  | .response status body =>
    if status == 404 then .ok []
    else if statusOk status then
      match body with
      | .arr rows => .ok rows
      | .nonArray => .ok []
    else .error ()

/-- `findProfilesByName` of `frontend/src/api/messages.ts`: an empty name
short-circuits to an empty list, and the catch turns any thrown error into an
empty list. -/
def findProfilesByName (name : Text) (f : Fetch JsonVal) : List SearchRow :=
  if name.isEmpty then []
  else
    match findProfilesByNameTry f with
    | .ok l => l
    | .error _ => []

theorem catch_default_counterexample :
    getConversationsTry (.response 500 []) = .error () ∧
    getConversations (Fetch.netError) = [] ∧
    getConversations (.response 404 [⟨"7".data, "Bob".data, none, none⟩]) = [] ∧
    getConversations (.response 500 []) = [] ∧
    findProfilesByNameTry .netError = .error () ∧
    findProfilesByName ("bob".data) .netError = [] ∧
    findProfilesByName ("bob".data) (.response 404 (.arr [⟨"7".data, "Bob".data⟩])) = [] ∧
    findProfilesByName ("bob".data) (.response 500 (.arr [])) = [] :=
  ⟨by rfl, by decide, by decide, by decide, by rfl, by decide, by decide, by decide⟩

/-- C9 (amended): for every failing conversation-list or user-search
retrieval — a rejected fetch, a 404, or any other non-OK response — the
wrapper returns an empty list to its caller; the internal throw is swallowed
by the wrapper's own catch, so no error ever reaches the caller. -/
theorem catch_default_spec :
    (∀ f : Fetch (List ConvRow),
       (f = .netError ∨
        ∃ status body, f = .response status body ∧ statusOk status = false) →
       getConversations f = []) ∧
    (∀ (name : Text) (f : Fetch JsonVal),
       (f = .netError ∨
        ∃ status body, f = .response status body ∧ statusOk status = false) →
       findProfilesByName name f = []) := by
  constructor
  · intro f h
    rcases h with rfl | ⟨status, body, rfl, hbad⟩
    · rfl
    · unfold getConversations
      simp only [getConversationsTry]
      by_cases h404 : (status == 404) = true
      · rw [if_pos h404]
      · rw [if_neg h404, if_neg (by simp [hbad])]
  · intro name f h
    unfold findProfilesByName
    by_cases hname : name.isEmpty = true
    · rw [if_pos hname]
    · rw [if_neg hname]
      rcases h with rfl | ⟨status, body, rfl, hbad⟩
      · rfl
      · simp only [findProfilesByNameTry]
        by_cases h404 : (status == 404) = true
        · rw [if_pos h404]
        · rw [if_neg h404, if_neg (by simp [hbad])]

theorem catch_default_spec_witness :
    ((Fetch.response 503 ([] : List ConvRow)) = Fetch.netError ∨
      ∃ status body, (Fetch.response 503 ([] : List ConvRow)) = .response status body ∧
        statusOk status = false) ∧
    getConversations (.response 503 []) = [] ∧
    ((Fetch.response 503 JsonVal.nonArray) = Fetch.netError ∨
      ∃ status body, (Fetch.response 503 JsonVal.nonArray) = .response status body ∧
        statusOk status = false) ∧
    findProfilesByName ("bob".data) (.response 503 .nonArray) = [] :=
  ⟨Or.inr ⟨503, [], rfl, by decide⟩,
   (catch_default_spec).1 (.response 503 []) (Or.inr ⟨503, [], rfl, by decide⟩),
   Or.inr ⟨503, .nonArray, rfl, by decide⟩,
   (catch_default_spec).2 ("bob".data) (.response 503 .nonArray)
     (Or.inr ⟨503, .nonArray, rfl, by decide⟩)⟩

/-- The authenticated-user record cached by the frontend
(`currentUser` in `frontend/src/api/useAuth.ts`); `none` models `null`. -/
structure AuthUser where
  id : Text
  username : Text
deriving DecidableEq, Repr

/-- `getMe` of `frontend/src/api/auth.ts`: any non-OK response throws the
parsed error body, an OK response yields the parsed user. -/
def getMe : Fetch AuthUser → Except Unit (Option AuthUser)
  | .netError => .error ()
  | .response status body =>
    if statusOk status then .ok (some body) else .error ()

/-- `fetchCurrentUser` of `frontend/src/api/useAuth.ts`: the `tryCatch`
result is inspected; on an error the failure is only logged and the cached
user is left unchanged, and a missing user also leaves the cache unchanged;
only a present user overwrites the cache. -/
def fetchCurrentUser (current : Option AuthUser)
    (r : Except Unit (Option AuthUser)) : Option AuthUser :=
  match r with
  | .error _ => current
  | .ok none => current
  | .ok (some user) => some user

/-- `logout` of `frontend/src/api/useAuth.ts`: awaits the logout call, then
clears the cached user; a rejected call propagates before the reset. -/
def logout (current : Option AuthUser) (apiResult : Except Unit Unit) :
    Option AuthUser :=
  match apiResult with
  | .error _ => current
  | .ok _ => none

/-- C10: when `getMe` fails (a rejected fetch or any non-OK response, e.g. a
401 after session expiry or revocation), `fetchCurrentUser` leaves the cached
user unchanged — a previously authenticated non-null user stays set — and
only a completed `logout` resets the cache to `null`. -/
theorem fetchCurrentUser_spec :
    (∀ (current : Option AuthUser) (f : Fetch AuthUser),
       (f = .netError ∨
        ∃ status body, f = .response status body ∧ statusOk status = false) →
       fetchCurrentUser current (getMe f) = current) ∧
    (∀ (u : AuthUser) (r : Except Unit (Option AuthUser)),
       fetchCurrentUser (some u) r ≠ none) ∧
    (∀ current, logout current (.ok ()) = none) ∧
    (∀ current e, logout current (.error e) = current) := by
  refine ⟨?_, ?_, fun _ => rfl, fun _ _ => rfl⟩
  · intro current f h
    rcases h with rfl | ⟨status, body, rfl, hbad⟩
    · rfl
    · show fetchCurrentUser current (getMe (.response status body)) = current
      simp only [getMe]
      rw [if_neg (by simp [hbad])]
      rfl
  · intro u r
    rcases r with e | v
    · exact fun hcon => Option.noConfusion hcon
    · rcases v with _ | v
      · exact fun hcon => Option.noConfusion hcon
      · exact fun hcon => Option.noConfusion hcon

theorem fetchCurrentUser_spec_witness :
    ((Fetch.response 401 (AuthUser.mk ("9".data) ("mallory".data))) = Fetch.netError ∨
      ∃ status body,
        (Fetch.response 401 (AuthUser.mk ("9".data) ("mallory".data))) =
          .response status body ∧ statusOk status = false) ∧
    fetchCurrentUser (some (AuthUser.mk ("1".data) ("alice".data)))
        (getMe (.response 401 (AuthUser.mk ("9".data) ("mallory".data)))) =
      some (AuthUser.mk ("1".data) ("alice".data)) :=
  ⟨Or.inr ⟨401, AuthUser.mk ("9".data) ("mallory".data), rfl, by decide⟩,
   (fetchCurrentUser_spec).1 (some (AuthUser.mk ("1".data) ("alice".data)))
     (.response 401 (AuthUser.mk ("9".data) ("mallory".data)))
     (Or.inr ⟨401, AuthUser.mk ("9".data) ("mallory".data), rfl, by decide⟩)⟩

end Chat
